import Mathlib

/-!
Verification of the portfolio repository's two core behaviors against its
specification: the contact-form controller (field validation, submit-button
enablement, phone-error gating, submission outcome handling, shared verbatim
by the two controller variants `part_000` and `part_001`) and the article
content post-processor (`src/lib/articleProcessor.ts`).

Strings are modelled as Lean `String`/`List Char`; the JavaScript regexes
and string operations used by the source are translated into executable
definitions below.
-/

/-- The JavaScript whitespace class `\s` (also the set removed by
`String.prototype.trim`), restricted to the code points it names. -/
def isJsSpace (c : Char) : Bool :=
  c = ' ' || c = '\t' || c = '\n' || c = '\r' || c = '\x0b' || c = '\x0c' ||
  c = '\u00a0' || c = '\u1680' || ('\u2000' ≤ c && c ≤ '\u200a') ||
  c = '\u2028' || c = '\u2029' || c = '\u202f' || c = '\u205f' ||
  c = '\u3000' || c = '\ufeff'

/-- JS `value.trim()`: remove leading and trailing whitespace. -/
def jsTrim (l : List Char) : List Char :=
  ((l.dropWhile isJsSpace).reverse.dropWhile isJsSpace).reverse

/-- JS `value.trim()` on `String`s. -/
def jsTrimS (s : String) : String :=
  String.mk (jsTrim s.data)

/-- A character matched by the regex class `[^\s@]`. -/
def okChar (c : Char) : Bool :=
  !(isJsSpace c) && !(c = '@')

/-- Does the list contain a '.' at some position other than the last?
Used to decide whether the part after '@' splits as `[^\s@]+\.[^\s@]+`. -/
def dotBeforeLast : List Char → Bool
  | [] => false
  | c :: rest => !rest.isEmpty && (c = '.' || dotBeforeLast rest)

/-- Does the list split as `m ++ '.' :: t` with `m` and `t` nonempty?
(The first element is skipped, so the '.' is at an inner position.) -/
def hasInnerDot : List Char → Bool
  | [] => false
  | _ :: t => dotBeforeLast t

/-- The `isValidEmail` of the two contact-form controllers:
`/^[^\s@]+@[^\s@]+\.[^\s@]+$/.test(email.trim())`.
Since `[^\s@]` never matches '@', the '@' of the pattern must match the
first '@' of the string; the matcher below is that regex made
deterministic. -/
def isValidEmail (email : String) : Bool :=
  let s := jsTrim email.data
  let beforeAt := s.takeWhile (fun c => !(c = '@'))
  match s.dropWhile (fun c => !(c = '@')) with
  | [] => false
  | _ :: afterAt =>
    !beforeAt.isEmpty && beforeAt.all okChar && afterAt.all okChar &&
      hasInnerDot afterAt

/-- The shape the spec ascribes to accepted emails: trimmed input is
`<non-space-non-@>+ @ <non-space-non-@>+ . <non-space-non-@>+`. -/
def EmailShape (s : String) : Prop :=
  ∃ l m t : List Char,
    jsTrim s.data = l ++ '@' :: (m ++ '.' :: t) ∧
    l ≠ [] ∧ m ≠ [] ∧ t ≠ [] ∧
    (∀ c ∈ l, okChar c = true) ∧
    (∀ c ∈ m, okChar c = true) ∧
    (∀ c ∈ t, okChar c = true)

/-- A character removed by the phone normalizer `replace(/[\s\-\(\)]/g, "")`. -/
def phoneStripChar (c : Char) : Bool :=
  isJsSpace c || c = '-' || c = '(' || c = ')'

/-- JS `phone.trim().replace(/[\s\-\(\)]/g, "")`. -/
def cleanPhone (phone : String) : List Char :=
  (jsTrim phone.data).filter (fun c => !(phoneStripChar c))

/-- The test `/^\d{7,15}$/.test l`: 7 to 15 ASCII digits. -/
def isDigits7to15 (l : List Char) : Bool :=
  l.all Char.isDigit && decide (7 ≤ l.length) && decide (l.length ≤ 15)

/-- JS `x.replace(/^\+/, "")`: drop a single leading '+', if present. -/
def stripLeadPlus (l : List Char) : List Char :=
  if l.head? = some '+' then l.tail else l

/-- JS `countryCode.replace(/[^\d+]/g, "")`: keep only digits and '+'. -/
def hintDigitsPlus (countryCode : String) : List Char :=
  countryCode.data.filter (fun c => c.isDigit || c = '+')

/-- The `isValidPhoneNumber` of the two contact-form controllers.  The final
branch tests `/^\+?\d{7,15}$/` on `fullNumber.replace(/^\+/, "")`, which
is: strip one leading '+', then allow one further optional leading '+'
before the 7-15 digits — hence the two `stripLeadPlus` applications. -/
def isValidPhoneNumber (phone countryCode : String) : Bool :=
  let cleaned := cleanPhone phone
  if cleaned.head? = some '+' then
    isDigits7to15 cleaned.tail
  else if cleaned ≠ [] ∧ cleaned.all Char.isDigit = true then
    decide (7 ≤ cleaned.length ∧ cleaned.length ≤ 15)
  else if countryCode ≠ "" ∧ 7 ≤ cleaned.length then
    isDigits7to15 (stripLeadPlus (stripLeadPlus (hintDigitsPlus countryCode ++ cleaned)))
  else
    false

example : isValidEmail "a@b" = false := by decide
example : isValidEmail "a@b.c.d" = true := by decide
example : isValidEmail "a@b." = false := by decide
example : isValidPhoneNumber "++123" "" = false := by decide
example : isValidPhoneNumber "12345" "" = false := by decide
example : isValidPhoneNumber "20255a1234" "+1" = false := by decide

theorem dotBeforeLast_iff (l : List Char) :
    dotBeforeLast l = true ↔ ∃ m t, l = m ++ '.' :: t ∧ t ≠ [] := by
  induction l with
  | nil =>
    constructor
    · intro h; simp [dotBeforeLast] at h
    · rintro ⟨m, t, h, _⟩
      exact absurd h.symm (by cases m <;> simp)
  | cons c rest ih =>
    cases rest with
    | nil =>
      constructor
      · intro h; simp [dotBeforeLast] at h
      · rintro ⟨m, t, h, ht⟩
        cases m with
        | nil => simp at h; exact absurd h.2 ht
        | cons m0 ms => simp at h
    | cons r rs =>
      rw [dotBeforeLast]
      simp only [List.isEmpty_cons, Bool.not_false, Bool.true_and, Bool.or_eq_true,
        decide_eq_true_eq]
      constructor
      · rintro (hc | hd)
        · exact ⟨[], r :: rs, by rw [hc]; rfl, by simp⟩
        · obtain ⟨m, t, heq, ht⟩ := ih.mp hd
          exact ⟨c :: m, t, by rw [List.cons_append, ← heq], ht⟩
      · rintro ⟨m, t, heq, ht⟩
        cases m with
        | nil =>
          left
          exact (List.cons.injEq _ _ _ _ ▸ heq).1
        | cons m0 ms =>
          right
          rw [List.cons_append] at heq
          have h2 : r :: rs = ms ++ '.' :: t := (List.cons.injEq _ _ _ _ ▸ heq).2
          exact ih.mpr ⟨ms, t, h2, ht⟩

theorem takeWhile_dropWhile_split (p : Char → Bool) (l r : List Char) (x : Char)
    (hl : ∀ c ∈ l, p c = true) (hx : p x = false) :
    (l ++ x :: r).takeWhile p = l ∧ (l ++ x :: r).dropWhile p = x :: r := by
  induction l with
  | nil =>
    constructor
    · simp [List.takeWhile_cons, hx]
    · simp [List.dropWhile_cons, hx]
  | cons a as ih =>
    have ha : p a = true := hl a (by simp)
    have ih' := ih (fun c hc => hl c (by simp [hc]))
    constructor
    · simp [List.takeWhile_cons, ha, ih'.1]
    · simp [List.dropWhile_cons, ha, ih'.2]

theorem isValidEmail_eq (email : String) :
    isValidEmail email =
      (match (jsTrim email.data).dropWhile (fun c => !(c = '@')) with
       | [] => false
       | _ :: afterAt =>
         !((jsTrim email.data).takeWhile (fun c => !(c = '@'))).isEmpty &&
         ((jsTrim email.data).takeWhile (fun c => !(c = '@'))).all okChar &&
         afterAt.all okChar && hasInnerDot afterAt) := rfl

/-- C5: `isValidEmail` accepts exactly the strings whose trimmed form is
`<non-space-non-@>+@<non-space-non-@>+.<non-space-non-@>+`; in particular
"a@b.co" is accepted while "a@b" and "a b@c.com" are rejected. -/
theorem email_regex_spec :
    (∀ s : String, isValidEmail s = true ↔ EmailShape s) ∧
    isValidEmail "a@b.co" = true ∧ isValidEmail "a@b" = false ∧
    isValidEmail "a b@c.com" = false := by
  refine ⟨?_, by decide, by decide, by decide⟩
  intro s
  rw [isValidEmail_eq]
  constructor
  · intro h
    cases hd : (jsTrim s.data).dropWhile (fun c => !(c = '@')) with
    | nil => rw [hd] at h; exact absurd h (by simp)
    | cons a afterAt =>
      rw [hd] at h
      simp only [Bool.and_eq_true] at h
      obtain ⟨⟨⟨h1, h2⟩, h3⟩, h4⟩ := h
      have ha : a = '@' := by
        have := List.head?_dropWhile_not (fun c => !(c = '@')) (jsTrim s.data)
        rw [hd] at this
        simpa using this
      have hsplit : (jsTrim s.data).takeWhile (fun c => !(c = '@')) ++ a :: afterAt
          = jsTrim s.data := by
        rw [← hd, List.takeWhile_append_dropWhile]
      cases hia : afterAt with
      | nil => rw [hia] at h4; exact absurd h4 (by simp [hasInnerDot])
      | cons a0 t0 =>
        rw [hia] at h4
        obtain ⟨m', t', heq', ht'⟩ := (dotBeforeLast_iff t0).mp (by simpa [hasInnerDot] using h4)
        refine ⟨(jsTrim s.data).takeWhile (fun c => !(c = '@')), a0 :: m', t',
          ?_, ?_, ?_, ht', ?_, ?_, ?_⟩
        · conv_lhs => rw [← hsplit]
          rw [ha, hia, heq']
          simp
        · intro hnil; rw [hnil] at h1; simp at h1
        · simp
        · exact fun c hc => List.all_eq_true.mp h2 c hc
        · intro c hc
          apply List.all_eq_true.mp h3
          rw [hia, heq']
          rcases List.mem_cons.mp hc with h | h
          · simp [h]
          · simp [h]
        · intro c hc
          apply List.all_eq_true.mp h3
          rw [hia, heq']
          simp [hc]
  · rintro ⟨l, m, t, heq, hl, hm, ht, hal, ham, hat⟩
    have hpl : ∀ c ∈ l, (fun c : Char => !(c = '@')) c = true := by
      intro c hc
      have := hal c hc
      unfold okChar at this
      rw [Bool.and_eq_true] at this
      simpa using this.2
    have hsp := takeWhile_dropWhile_split (fun c : Char => !(c = '@'))
      l (m ++ '.' :: t) '@' hpl (by simp)
    rw [heq, hsp.2, hsp.1]
    simp only [Bool.and_eq_true]
    refine ⟨⟨⟨?_, ?_⟩, ?_⟩, ?_⟩
    · cases l with
      | nil => exact absurd rfl hl
      | cons x xs => simp
    · exact List.all_eq_true.mpr hal
    · apply List.all_eq_true.mpr
      intro c hc
      rcases List.mem_append.mp hc with h | h
      · exact ham c h
      · rcases List.mem_cons.mp h with h | h
        · rw [h]; decide
        · exact hat c h
    · obtain ⟨m0, ms, hm0⟩ := List.exists_cons_of_ne_nil hm
      rw [hm0]
      show dotBeforeLast (ms ++ '.' :: t) = true
      exact (dotBeforeLast_iff _).mpr ⟨ms, t, rfl, ht⟩

theorem isValidPhoneNumber_eq (phone countryCode : String) :
    isValidPhoneNumber phone countryCode =
      (if (cleanPhone phone).head? = some '+' then
        isDigits7to15 (cleanPhone phone).tail
      else if cleanPhone phone ≠ [] ∧ (cleanPhone phone).all Char.isDigit = true then
        decide (7 ≤ (cleanPhone phone).length ∧ (cleanPhone phone).length ≤ 15)
      else if countryCode ≠ "" ∧ 7 ≤ (cleanPhone phone).length then
        isDigits7to15 (stripLeadPlus (stripLeadPlus
          (hintDigitsPlus countryCode ++ cleanPhone phone)))
      else
        false) := rfl

/-- C2: when the cleaned phone starts with '+', acceptance is exactly
"the remainder is 7 to 15 ASCII digits"; when the cleaned phone is made of
digits only, acceptance is exactly "length between 7 and 15" — in both
cases independently of the `countryCode` hint. -/
theorem phone_intl_and_pure_digit_branches (phone hint : String) :
    ((cleanPhone phone).head? = some '+' →
      (isValidPhoneNumber phone hint = true ↔
        ((cleanPhone phone).tail.all Char.isDigit = true ∧
         7 ≤ (cleanPhone phone).tail.length ∧ (cleanPhone phone).tail.length ≤ 15)))
  ∧ ((cleanPhone phone).all Char.isDigit = true →
      (isValidPhoneNumber phone hint = true ↔
        (7 ≤ (cleanPhone phone).length ∧ (cleanPhone phone).length ≤ 15))) := by
  constructor
  · intro h
    rw [isValidPhoneNumber_eq, if_pos h]
    simp [isDigits7to15, Bool.and_eq_true, and_assoc]
  · intro h
    cases hc : cleanPhone phone with
    | nil =>
      rw [isValidPhoneNumber_eq, hc]
      simp
    | cons a as =>
      have ha : a.isDigit = true := List.all_eq_true.mp (hc ▸ h) a (by simp)
      have hne : a ≠ '+' := by
        intro hplus
        rw [hplus] at ha
        exact absurd ha (by decide)
      rw [isValidPhoneNumber_eq, hc, if_neg (by simpa using hne),
        if_pos ⟨by simp, hc ▸ h⟩]
      simp

/-- Helper: stripping a leading '+' from `hf ++ cl` leaves `cl` as a
suffix, provided `cl` itself does not start with '+'. -/
theorem stripLeadPlus_append (hf cl : List Char) (hcl : cl.head? ≠ some '+') :
    ∃ pre, stripLeadPlus (hf ++ cl) = pre ++ cl := by
  cases hf with
  | nil =>
    refine ⟨[], ?_⟩
    rw [List.nil_append, stripLeadPlus, if_neg hcl]
  | cons a as =>
    by_cases ha : a = '+'
    · refine ⟨as, ?_⟩
      rw [List.cons_append, stripLeadPlus]
      simp [ha]
    · refine ⟨a :: as, ?_⟩
      rw [List.cons_append, stripLeadPlus, if_neg (by simpa using ha)]

theorem stripLeadPlus_twice_append (hf cl : List Char) (hcl : cl.head? ≠ some '+') :
    ∃ pre, stripLeadPlus (stripLeadPlus (hf ++ cl)) = pre ++ cl := by
  obtain ⟨p1, h1⟩ := stripLeadPlus_append hf cl hcl
  obtain ⟨p2, h2⟩ := stripLeadPlus_append p1 cl hcl
  exact ⟨p2, by rw [h1, h2]⟩

theorem exists_nonDigit_of_all_false (l : List Char)
    (h : l.all Char.isDigit = false) : ∃ c ∈ l, c.isDigit = false := by
  induction l with
  | nil => simp at h
  | cons a as ih =>
    rw [List.all_cons] at h
    cases hd : a.isDigit with
    | false => exact ⟨a, by simp, hd⟩
    | true =>
      rw [hd, Bool.true_and] at h
      obtain ⟨c, hc, hcd⟩ := ih h
      exact ⟨c, by simp [hc], hcd⟩

theorem isDigits7to15_eq_false_of_mem (l : List Char) (c : Char)
    (hm : c ∈ l) (hd : c.isDigit = false) : isDigits7to15 l = false := by
  have : l.all Char.isDigit = false := by
    cases hall : l.all Char.isDigit with
    | false => rfl
    | true => exact absurd (List.all_eq_true.mp hall c hm) (by simp [hd])
  simp [isDigits7to15, this]

/-- C4: if the cleaned phone neither starts with '+' nor is all digits,
`isValidPhoneNumber` is false for every `countryCode` hint: the cleaned
value keeps a non-digit character, which survives the leading-'+'
stripping of the fallback branch and fails its digits-only test. -/
theorem phone_fallback_never_true (phone hint : String)
    (h1 : (cleanPhone phone).head? ≠ some '+')
    (h2 : (cleanPhone phone).all Char.isDigit = false) :
    isValidPhoneNumber phone hint = false := by
  rw [isValidPhoneNumber_eq, if_neg h1, if_neg (fun hand => by
    rw [h2] at hand; exact Bool.false_ne_true hand.2)]
  by_cases h3 : hint ≠ "" ∧ 7 ≤ (cleanPhone phone).length
  · rw [if_pos h3]
    obtain ⟨pre, hpre⟩ :=
      stripLeadPlus_twice_append (hintDigitsPlus hint) (cleanPhone phone) h1
    obtain ⟨c, hc, hcd⟩ := exists_nonDigit_of_all_false _ h2
    rw [hpre]
    exact isDigits7to15_eq_false_of_mem _ c (List.mem_append_right _ hc) hcd
  · rw [if_neg h3]

/-- Witness for C4 at a concrete input. -/
theorem phone_fallback_never_true_witness :
    isValidPhoneNumber "12a4567890" "+1" = false :=
  phone_fallback_never_true "12a4567890" "+1" (by decide) (by decide)

/-- C3: in the fallback branch (cleaned value neither starting with '+'
nor purely digits, non-empty hint, at least 7 cleaned characters),
acceptance is equivalent to "the hint digits concatenated with the
cleaned value, with a leading '+' stripped, are 7-15 digits".  Both sides
are in fact always false here, since the cleaned value keeps a non-digit
character that survives the stripping. -/
theorem phone_fallback_branch (phone hint : String)
    (hp1 : (cleanPhone phone).head? ≠ some '+')
    (hp2 : ¬(cleanPhone phone ≠ [] ∧ (cleanPhone phone).all Char.isDigit = true))
    (hp3 : hint ≠ "") (hp4 : 7 ≤ (cleanPhone phone).length) :
    (isValidPhoneNumber phone hint = true ↔
      isDigits7to15 (stripLeadPlus (hintDigitsPlus hint ++ cleanPhone phone)) = true) := by
  have hne : cleanPhone phone ≠ [] := by
    intro hnil
    rw [hnil] at hp4
    simp at hp4
  have h2 : (cleanPhone phone).all Char.isDigit = false := by
    cases hall : (cleanPhone phone).all Char.isDigit with
    | false => rfl
    | true => exact absurd ⟨hne, hall⟩ hp2
  obtain ⟨c, hc, hcd⟩ := exists_nonDigit_of_all_false _ h2
  have lhs := phone_fallback_never_true phone hint hp1 h2
  obtain ⟨pre, hpre⟩ := stripLeadPlus_append (hintDigitsPlus hint) (cleanPhone phone) hp1
  have rhs : isDigits7to15 (stripLeadPlus (hintDigitsPlus hint ++ cleanPhone phone)) = false := by
    rw [hpre]
    exact isDigits7to15_eq_false_of_mem _ c (List.mem_append_right _ hc) hcd
  rw [lhs, rhs]

/-- Witness for C3 at a concrete input. -/
theorem phone_fallback_branch_witness :
    (isValidPhoneNumber "1234567a" "+1" = true ↔
      isDigits7to15 (stripLeadPlus (hintDigitsPlus "+1" ++ cleanPhone "1234567a")) = true) :=
  phone_fallback_branch "1234567a" "+1" (by decide) (by decide) (by decide) (by decide)

/-- Witness for C2 at the spec's concrete examples. -/
theorem phone_intl_and_pure_digit_branches_witness :
    isValidPhoneNumber "+12025551234" "" = true ∧
    isValidPhoneNumber "2025551234" "" = true :=
  ⟨((phone_intl_and_pure_digit_branches "+12025551234" "").1 (by decide)).mpr (by decide),
   ((phone_intl_and_pure_digit_branches "2025551234" "").2 (by decide)).mpr (by decide)⟩

/-- The seven contact-form field values (raw, untrimmed, as held by the
DOM inputs).  Both controller variants read the same seven elements. -/
structure FormFields where
  firstName : String
  lastName : String
  company : String
  email : String
  country : String
  phone : String
  message : String
deriving DecidableEq

/-- The UI outcome of one `checkFormValidity` run: the submit button's
disabled state and whether the email / phone inline errors are shown. -/
structure ValidityResult where
  submitDisabled : Bool
  emailErrorShown : Bool
  phoneErrorShown : Bool
deriving DecidableEq

/-- The `checkFormValidity` written (identically) in both controller
variants: trims the seven values, requires all non-empty plus email and
phone format validity for the submit button, and computes the inline
error visibility (the phone error additionally gated by
`phoneFieldInteracted`). -/
def checkFormValidity (f : FormFields) (phoneFieldInteracted : Bool) : ValidityResult :=
  let firstName := jsTrimS f.firstName
  let lastName := jsTrimS f.lastName
  let company := jsTrimS f.company
  let email := jsTrimS f.email
  let country := jsTrimS f.country
  let phone := jsTrimS f.phone
  let message := jsTrimS f.message
  let allFieldsFilled :=
    !(firstName = "") && !(lastName = "") && !(company = "") &&
    !(email = "") && !(country = "") && !(phone = "") && !(message = "")
  let emailValid := isValidEmail email
  let phoneValid := isValidPhoneNumber phone country
  let formIsValid := allFieldsFilled && emailValid && phoneValid
  { submitDisabled := !formIsValid
    emailErrorShown := !(email = "") && !emailValid
    phoneErrorShown := !(phone = "") && !phoneValid && phoneFieldInteracted }

/-- C1: after any `checkFormValidity` run the submit control is enabled
exactly when all seven trimmed fields are non-empty and the email and
phone validators accept; in particular it is disabled whenever the
message field (for example) is empty, whatever the other fields hold.
`checkFormValidity` is textually identical in both controller variants,
so the statement covers both. -/
theorem submit_enabled_iff (f : FormFields) (pi : Bool) :
    ((checkFormValidity f pi).submitDisabled = false ↔
      (jsTrimS f.firstName ≠ "" ∧ jsTrimS f.lastName ≠ "" ∧
       jsTrimS f.company ≠ "" ∧ jsTrimS f.email ≠ "" ∧
       jsTrimS f.country ≠ "" ∧ jsTrimS f.phone ≠ "" ∧
       jsTrimS f.message ≠ "" ∧
       isValidEmail (jsTrimS f.email) = true ∧
       isValidPhoneNumber (jsTrimS f.phone) (jsTrimS f.country) = true))
  ∧ (jsTrimS f.message = "" → (checkFormValidity f pi).submitDisabled = true) := by
  constructor
  · show (!(_ && _ && _) : Bool) = false ↔ _
    simp [Bool.and_eq_true, and_assoc]
  · intro h
    show (!(_ && _ && _) : Bool) = true
    simp [h]

/-- Witness for C1: a fully valid form enables the button, and the same
form with an empty message disables it. -/
theorem submit_enabled_iff_witness :
    (checkFormValidity
      { firstName := "Jane", lastName := "Doe", company := "ACME",
        email := "jane@doe.com", country := "US",
        phone := "+12025551234", message := "hello" } true).submitDisabled = false ∧
    (checkFormValidity
      { firstName := "Jane", lastName := "Doe", company := "ACME",
        email := "jane@doe.com", country := "US",
        phone := "+12025551234", message := "" } true).submitDisabled = true :=
  ⟨(submit_enabled_iff _ true).1.mpr (by decide),
   (submit_enabled_iff _ true).2 (by decide)⟩

/-- The contact-form controller's client-side UI state: current field
values, the `phoneFieldInteracted` flag, the submit button's disabled
state and label, and the visibility of the two inline errors. -/
structure UIState where
  fields : FormFields
  phoneInteracted : Bool
  submitDisabled : Bool
  buttonLabel : String
  emailErrorShown : Bool
  phoneErrorShown : Bool
deriving DecidableEq

/-- One invocation of `checkFormValidity`, applied to the live state:
writes the computed disabled flag and error visibilities. -/
def applyCheck (s : UIState) : UIState :=
  let r := checkFormValidity s.fields s.phoneInteracted
  { s with submitDisabled := r.submitDisabled,
           emailErrorShown := r.emailErrorShown,
           phoneErrorShown := r.phoneErrorShown }

/-- Names of the seven form controls. -/
inductive FieldId where
  | firstName | lastName | company | email | country | phone | message
deriving DecidableEq

/-- Write one field of the form. -/
def setField (f : FormFields) : FieldId → String → FormFields
  | .firstName, v => { f with firstName := v }
  | .lastName, v => { f with lastName := v }
  | .company, v => { f with company := v }
  | .email, v => { f with email := v }
  | .country, v => { f with country := v }
  | .phone, v => { f with phone := v }
  | .message, v => { f with message := v }

/-- All fields blank: the state produced by `contactForm.reset()` (the
form's inputs have no default values). -/
def emptyFields : FormFields :=
  { firstName := "", lastName := "", company := "", email := "",
    country := "", phone := "", message := "" }

/-- The events the two controllers handle.  `input`/`change`/`blurOn`
are the user-driven field events; `focusPhone` is the phone focus
listener; `geoSuccess`/`geoFailure` model the ipapi.co lookup
resolution; `submitPressed` is the submit listener up to the outbound
request; `submitResponse ok` is the modal variant's (`part_001`) fetch
resolution; `successTimeout`/`errorTimeout` are the banner variant's
(`part_000`) URL-parameter timeout handlers. -/
inductive Ev where
  | input (fl : FieldId) (v : String)
  | change (fl : FieldId) (v : String)
  | blurOn (fl : FieldId)
  | focusPhone
  | geoSuccess (countryCode callingCode : String)
  | geoFailure
  | submitPressed
  | submitResponse (ok : Bool)
  | successTimeout
  | errorTimeout

/-- The event-handler semantics of the two controllers.  `orig` is the
captured `originalButtonText`.  For `input`, the three listeners run in
registration order: `checkFormValidity`, then (phone only) the
`phoneFieldInteracted := true` listener, then the restore-label listener
that re-runs `checkFormValidity` when the label was "Sending...". -/
def step (orig : String) (s : UIState) : Ev → UIState
  | .input fl v =>
    let s1 := applyCheck { s with fields := setField s.fields fl v }
    let s2 := if fl = FieldId.phone then { s1 with phoneInteracted := true } else s1
    if s2.buttonLabel = "Sending..." then
      applyCheck { s2 with buttonLabel := orig }
    else s2
  | .change fl v => applyCheck { s with fields := setField s.fields fl v }
  | .blurOn fl =>
    if fl = FieldId.email ∨ fl = FieldId.phone then applyCheck s else s
  | .focusPhone => { s with phoneInteracted := true }
  | .geoSuccess countryCode callingCode =>
    applyCheck { s with fields :=
      { s.fields with country := countryCode, phone := callingCode } }
  | .geoFailure => applyCheck s
  | .submitPressed =>
    let s1 := applyCheck s
    if s1.submitDisabled then s1
    else { s1 with submitDisabled := true, buttonLabel := "Sending..." }
  | .submitResponse ok =>
    if ok then
      let s1 := applyCheck { s with fields := emptyFields }
      { s1 with submitDisabled := false, buttonLabel := orig }
    else { s with submitDisabled := false, buttonLabel := orig }
  | .successTimeout => applyCheck { s with fields := emptyFields }
  | .errorTimeout => s

/-- The controller's state on DOMContentLoaded: blank fields,
`phoneFieldInteracted = false`, hidden errors, followed by the initial
`checkFormValidity()` call. -/
def initState (orig : String) : UIState :=
  applyCheck
    { fields := emptyFields, phoneInteracted := false, submitDisabled := false,
      buttonLabel := orig, emailErrorShown := false, phoneErrorShown := false }

/-- States the controller can reach from page load. -/
inductive Reach (orig : String) : UIState → Prop where
  | init : Reach orig (initState orig)
  | step : ∀ s e, Reach orig s → Reach orig (step orig s e)

/-- The phone-error display invariant of claim C7. -/
def PhoneErrInv (s : UIState) : Prop :=
  s.phoneErrorShown = true →
    jsTrimS s.fields.phone ≠ "" ∧
    isValidPhoneNumber (jsTrimS s.fields.phone) (jsTrimS s.fields.country) = false ∧
    s.phoneInteracted = true

theorem phoneErrInv_applyCheck (s : UIState) : PhoneErrInv (applyCheck s) := by
  intro hshown
  have h : (!(jsTrimS s.fields.phone = "") &&
      !(isValidPhoneNumber (jsTrimS s.fields.phone) (jsTrimS s.fields.country)) &&
      s.phoneInteracted) = true := hshown
  rw [Bool.and_eq_true, Bool.and_eq_true] at h
  refine ⟨?_, ?_, h.2⟩
  · simpa using h.1.1
  · simpa using h.1.2

theorem phoneErrInv_setInteracted (s : UIState) (h : PhoneErrInv s) :
    PhoneErrInv { s with phoneInteracted := true } := by
  intro hshown
  obtain ⟨h1, h2, _⟩ := h hshown
  exact ⟨h1, h2, rfl⟩

theorem phoneErrInv_setButton (s : UIState) (d : Bool) (l : String)
    (h : PhoneErrInv s) :
    PhoneErrInv { s with submitDisabled := d, buttonLabel := l } := by
  intro hshown
  exact h hshown

theorem phoneErrInv_ite (c : Prop) [Decidable c] (a b : UIState)
    (ha : PhoneErrInv a) (hb : PhoneErrInv b) :
    PhoneErrInv (if c then a else b) := by
  split
  · exact ha
  · exact hb

theorem phoneErrInv_reach (orig : String) (s : UIState) (h : Reach orig s) :
    PhoneErrInv s := by
  induction h with
  | init => exact phoneErrInv_applyCheck _
  | step s e _ ih =>
    cases e with
    | input fl v =>
      exact phoneErrInv_ite _ _ _ (phoneErrInv_applyCheck _)
        (phoneErrInv_ite _ _ _
          (phoneErrInv_setInteracted _ (phoneErrInv_applyCheck _))
          (phoneErrInv_applyCheck _))
    | change fl v => exact phoneErrInv_applyCheck _
    | blurOn fl =>
      exact phoneErrInv_ite _ _ _ (phoneErrInv_applyCheck _) ih
    | focusPhone => exact phoneErrInv_setInteracted _ ih
    | geoSuccess countryCode callingCode => exact phoneErrInv_applyCheck _
    | geoFailure => exact phoneErrInv_applyCheck _
    | submitPressed =>
      exact phoneErrInv_ite _ _ _ (phoneErrInv_applyCheck _)
        (phoneErrInv_setButton _ _ _ (phoneErrInv_applyCheck _))
    | submitResponse ok =>
      exact phoneErrInv_ite _ _ _
        (phoneErrInv_setButton _ _ _ (phoneErrInv_applyCheck _))
        (phoneErrInv_setButton _ _ _ ih)
    | successTimeout => exact phoneErrInv_applyCheck _
    | errorTimeout => exact ih

/-- C7: in every reachable controller state, the phone inline error is
shown only if the trimmed phone value is non-empty, the phone validator
rejects it, and `phoneFieldInteracted` is true — so the error can never
appear before the phone field was focused or edited, even when a
geolocation prefill has written an invalid value into it. -/
theorem phone_error_requires_interaction (orig : String) (s : UIState)
    (h : Reach orig s) :
    s.phoneErrorShown = true →
      jsTrimS s.fields.phone ≠ "" ∧
      isValidPhoneNumber (jsTrimS s.fields.phone) (jsTrimS s.fields.country) = false ∧
      s.phoneInteracted = true :=
  phoneErrInv_reach orig s h

/-- Witness for C7: a concrete reachable state (focus the phone, then
type an invalid value) in which the phone error is in fact shown, so the
gating conjunction holds there. -/
theorem phone_error_requires_interaction_witness :
    jsTrimS (step "Send" (step "Send" (initState "Send") Ev.focusPhone)
        (Ev.input FieldId.phone "abc")).fields.phone ≠ "" ∧
    isValidPhoneNumber
      (jsTrimS (step "Send" (step "Send" (initState "Send") Ev.focusPhone)
        (Ev.input FieldId.phone "abc")).fields.phone)
      (jsTrimS (step "Send" (step "Send" (initState "Send") Ev.focusPhone)
        (Ev.input FieldId.phone "abc")).fields.country) = false ∧
    (step "Send" (step "Send" (initState "Send") Ev.focusPhone)
        (Ev.input FieldId.phone "abc")).phoneInteracted = true :=
  phone_error_requires_interaction "Send" _
    (Reach.step _ _ (Reach.step _ _ Reach.init)) (by decide)

theorem checkFormValidity_empty (pi : Bool) :
    checkFormValidity emptyFields pi =
      { submitDisabled := true, emailErrorShown := false, phoneErrorShown := false } := by
  cases pi <;> rfl

/-- A filled, mid-submission state of the modal controller variant. -/
def midSubmitState : UIState :=
  { fields :=
      { firstName := "Jane", lastName := "Doe", company := "ACME",
        email := "jane@doe.com", country := "US",
        phone := "+12025551234", message := "hello" },
    phoneInteracted := true, submitDisabled := true,
    buttonLabel := "Sending...", emailErrorShown := false,
    phoneErrorShown := false }

/-- Counterexample to C6: in the modal variant (`part_001`), the
`response.ok` handler resets the fields but then explicitly sets
`submitButton.disabled = false`, so after a successful submission the
submit control is ENABLED, not disabled — the claim fails for that
variant. -/
theorem submit_success_disabled_cex :
    (step "Send" midSubmitState (Ev.submitResponse true)).fields = emptyFields ∧
    (step "Send" midSubmitState (Ev.submitResponse true)).submitDisabled = false := by
  constructor <;> rfl

/-- C6 (amended): after a submission completes successfully, all seven
fields are empty in both variants; in the banner variant (`part_000`)
the re-run of `checkFormValidity` leaves the submit control disabled,
while in the modal variant (`part_001`) the success handler explicitly
re-enables it right after the validity re-check. -/
theorem submit_success_state (orig : String) (s : UIState) :
    ((step orig s Ev.successTimeout).fields = emptyFields ∧
     (step orig s Ev.successTimeout).submitDisabled = true) ∧
    ((step orig s (Ev.submitResponse true)).fields = emptyFields ∧
     (step orig s (Ev.submitResponse true)).submitDisabled = false) := by
  refine ⟨⟨rfl, ?_⟩, rfl, ?_⟩
  · show (checkFormValidity emptyFields s.phoneInteracted).submitDisabled = true
    rw [checkFormValidity_empty]
  · rfl

/-- A top-level block of the markdown-rendered article HTML: either a
generic element (tag name in upper case, class attribute, text content)
or a fenced code block `<pre><code class=...>text</code></pre>`. -/
inductive Block where
  | el (tag className text : String)
  | preCode (codeClassName codeText : String)
deriving DecidableEq, Inhabited

/-- The `element.tagName` of a block. -/
def tagOf : Block → String
  | .el tag _ _ => tag
  | .preCode _ _ => "PRE"

/-- Is the block not a level-2 heading? -/
def notH2 (b : Block) : Bool := !(tagOf b = "H2")

/-- Here `listStartsWith l sub` decides: is `sub` an initial run of `l`? -/
def listStartsWith : List Char → List Char → Bool
  | _, [] => true
  | [], _ :: _ => false
  | a :: as, b :: bs => a = b && listStartsWith as bs

/-- Here `listContainsSub l sub` decides: does `sub` occur contiguously in `l`? -/
def listContainsSub : List Char → List Char → Bool
  | [], sub => sub.isEmpty
  | a :: as, sub => listStartsWith (a :: as) sub || listContainsSub as sub

/-- JavaScript `s.includes(sub)`. -/
def jsIncludes (s sub : String) : Bool := listContainsSub s.data sub.data

/-- One block of `processMermaidDiagrams`: a `<pre><code>` whose
`className.includes("language-mermaid")` is replaced by
`<div class="mermaid">` holding the code's text content; anything else
is untouched. -/
def mermaidStep : Block → Block
  | .preCode codeClassName codeText =>
    if jsIncludes codeClassName "language-mermaid" then
      Block.el "DIV" "mermaid" codeText
    else
      Block.preCode codeClassName codeText
  | .el tag className text => Block.el tag className text

/-- The `processMermaidDiagrams` of `articleProcessor.ts`, over the
document's block sequence. -/
def processMermaidDiagrams (blocks : List Block) : List Block :=
  blocks.map mermaidStep

/-- The sectionizing loop of `processArticleContent`: `cur` is the
content of the currently open wrapper div; an H2 closes it and opens a
fresh wrapper seeded with the H2; anything else is appended to the open
wrapper. -/
def sectionizeAux : List Block → List Block → List (List Block)
  | [], cur => [cur]
  | e :: rest, cur =>
    if tagOf e = "H2" then cur :: sectionizeAux rest [e]
    else sectionizeAux rest (cur ++ [e])

/-- The wrapper contents produced by the sectionizing loop, starting
from the initial (pre-first-H2) wrapper created up front. -/
def sectionize (elems : List Block) : List (List Block) :=
  sectionizeAux elems []

/-- A section wrapper `<div class="c9gi4">` and its children. -/
structure SectionDiv where
  className : String
  children : List Block
deriving DecidableEq

/-- The sectionizing pass as a document transformation. -/
def sectionizeDoc (blocks : List Block) : List SectionDiv :=
  (sectionize blocks).map (fun g => { className := "c9gi4", children := g })

theorem length_dropWhile_le' (p : Block → Bool) (l : List Block) :
    (l.dropWhile p).length ≤ l.length := by
  induction l with
  | nil => simp
  | cons a as ih =>
    rw [List.dropWhile_cons]
    split
    · exact Nat.le_succ_of_le ih
    · exact Nat.le_refl _

/-- The groups headed by the H2s of `l` (assuming `l` starts with an H2
or is empty): each group is an H2 followed by the non-H2 run after it. -/
def h2Sections (l : List Block) : List (List Block) :=
  match l with
  | [] => []
  | e :: rest =>
    (e :: rest.takeWhile notH2) :: h2Sections (rest.dropWhile notH2)
termination_by l.length
decreasing_by
  simp only [List.length_cons]
  exact Nat.lt_succ_of_le (length_dropWhile_le' _ _)

/-- A well-formed H2 section: nonempty, headed by an H2, no other H2. -/
def GroupOk (g : List Block) : Prop :=
  g ≠ [] ∧ tagOf g.headI = "H2" ∧ ∀ b ∈ g.tail, tagOf b ≠ "H2"

theorem h2Sections_nil : h2Sections [] = [] := by
  rw [h2Sections]

theorem h2Sections_cons (e : Block) (rest : List Block) :
    h2Sections (e :: rest) =
      (e :: rest.takeWhile notH2) :: h2Sections (rest.dropWhile notH2) := by
  rw [h2Sections]

theorem h2Sections_flatten_fuel :
    ∀ n (l : List Block), l.length ≤ n → (h2Sections l).flatten = l := by
  intro n
  induction n with
  | zero =>
    intro l hl
    rw [List.eq_nil_of_length_eq_zero (Nat.le_zero.mp hl), h2Sections_nil]
    rfl
  | succ n ih =>
    intro l hl
    cases l with
    | nil => rw [h2Sections_nil]; rfl
    | cons e rest =>
      rw [h2Sections_cons, List.flatten_cons,
        ih (rest.dropWhile notH2)
          (Nat.le_trans (length_dropWhile_le' _ _) (Nat.le_of_succ_le_succ hl)),
        List.cons_append, List.takeWhile_append_dropWhile]

theorem h2Sections_ok_fuel :
    ∀ n (l : List Block), l.length ≤ n →
      (∀ b bs, l = b :: bs → tagOf b = "H2") →
      ∀ g ∈ h2Sections l, GroupOk g := by
  intro n
  induction n with
  | zero =>
    intro l hl _
    rw [List.eq_nil_of_length_eq_zero (Nat.le_zero.mp hl), h2Sections_nil]
    simp
  | succ n ih =>
    intro l hl hhead
    cases l with
    | nil => rw [h2Sections_nil]; simp
    | cons e rest =>
      rw [h2Sections_cons]
      intro g hg
      rcases List.mem_cons.mp hg with hg | hg
      · subst hg
        refine ⟨by simp, hhead e rest rfl, ?_⟩
        intro b hb
        have := List.mem_takeWhile_imp hb
        simpa [notH2] using this
      · refine ih (rest.dropWhile notH2)
          (Nat.le_trans (length_dropWhile_le' _ _) (Nat.le_of_succ_le_succ hl))
          ?_ g hg
        intro b bs hbs
        have := List.head?_dropWhile_not notH2 rest
        rw [hbs] at this
        simpa [notH2] using this

theorem sectionizeAux_eq (l : List Block) :
    ∀ cur, sectionizeAux l cur =
      (cur ++ l.takeWhile notH2) :: h2Sections (l.dropWhile notH2) := by
  induction l with
  | nil =>
    intro cur
    rw [sectionizeAux]
    simp [h2Sections_nil]
  | cons e rest ih =>
    intro cur
    by_cases h : tagOf e = "H2"
    · have hne : notH2 e = false := by simp [notH2, h]
      rw [sectionizeAux, if_pos h, ih [e],
        List.takeWhile_cons_of_neg (by simp [hne]),
        List.dropWhile_cons_of_neg (by simp [hne]), h2Sections_cons]
      simp
    · have hpo : notH2 e = true := by simp [notH2, h]
      rw [sectionizeAux, if_neg h, ih (cur ++ [e]),
        List.takeWhile_cons_of_pos hpo, List.dropWhile_cons_of_pos hpo]
      simp

/-- C8: the sectionizing pass groups the flat block sequence so that the
initial wrapper holds exactly the content before the first H2, every
later wrapper is headed by an H2 and holds the following non-H2 run, and
no block is lost or reordered; on the spec's example
`<p>intro</p><h2>A</h2><p>a</p><h2>B</h2><p>b</p>` it yields exactly the
three wrappers `[intro]`, `[A, a]`, `[B, b]`. -/
theorem sectionize_spec :
    (∀ elems : List Block, (sectionize elems).flatten = elems) ∧
    (∀ elems : List Block, (sectionize elems).headI = elems.takeWhile notH2) ∧
    (∀ elems : List Block, ∀ g ∈ (sectionize elems).tail, GroupOk g) ∧
    sectionize
      [Block.el "P" "" "intro", Block.el "H2" "" "A", Block.el "P" "" "a",
       Block.el "H2" "" "B", Block.el "P" "" "b"] =
      [[Block.el "P" "" "intro"],
       [Block.el "H2" "" "A", Block.el "P" "" "a"],
       [Block.el "H2" "" "B", Block.el "P" "" "b"]] := by
  refine ⟨?_, ?_, ?_, ?_⟩
  · intro elems
    rw [sectionize, sectionizeAux_eq elems [], List.flatten_cons,
      h2Sections_flatten_fuel (elems.dropWhile notH2).length _ (Nat.le_refl _),
      List.nil_append, List.takeWhile_append_dropWhile]
  · intro elems
    rw [sectionize, sectionizeAux_eq elems []]
    simp
  · intro elems g hg
    rw [sectionize, sectionizeAux_eq elems []] at hg
    simp only [List.tail_cons] at hg
    refine h2Sections_ok_fuel (elems.dropWhile notH2).length _ (Nat.le_refl _) ?_ g hg
    intro b bs hbs
    have := List.head?_dropWhile_not notH2 elems
    rw [hbs] at this
    simpa [notH2] using this
  · decide

/-- Witness for C8: the example's middle group is a well-formed
H2-headed section. -/
theorem sectionize_spec_witness :
    GroupOk [Block.el "H2" "" "A", Block.el "P" "" "a"] :=
  sectionize_spec.2.2.1
    [Block.el "P" "" "intro", Block.el "H2" "" "A", Block.el "P" "" "a",
     Block.el "H2" "" "B", Block.el "P" "" "b"]
    [Block.el "H2" "" "A", Block.el "P" "" "a"] (by decide)

/-- Split on a separator character (the shape of `String.split`). -/
def splitOnChar (sep : Char) : List Char → List (List Char)
  | [] => [[]]
  | c :: rest =>
    let r := splitOnChar sep rest
    if c = sep then [] :: r
    else (c :: r.headI) :: r.tail

/-- The DOM `classList` of a class attribute: its space-separated tokens. -/
def classTokens (cls : String) : List String :=
  (splitOnChar ' ' cls.data).map String.mk

/-- DOM `classList.add` for one token: append unless already present. -/
def classListAdd1 (cls tok : String) : String :=
  if (classTokens cls).contains tok then cls
  else if cls = "" then tok else cls ++ " " ++ tok

/-- DOM `classList.add(...)` for several tokens. -/
def classListAdd (cls : String) (toks : List String) : String :=
  toks.foldl classListAdd1 cls

/-- The fixed presentational class sets the classify pass adds per tag
(the `querySelectorAll`/`classList.add` sequence of
`processArticleContent`; width/height and list-style attributes are
outside this model). -/
def classesFor (tag : String) : List String :=
  if tag = "H2" then ["cxmc9", "cg0ht", "cpynq", "crvmr"]
  else if tag = "H3" then ["cxmc9", "cg0ht", "cpynq", "cjvvo"]
  else if tag = "DIV" then ["c9gi4"]
  else if tag = "STRONG" then ["cxmc9", "cg0ht", "cnp10"]
  else if tag = "A" then ["cm6cq", "chugl", "cnp10"]
  else if tag = "UL" then ["c2czg", "c0c3z", "csndo"]
  else if tag = "OL" then ["c2czg", "c0c3z", "csndo"]
  else if tag = "IMG" then ["c8pgj"]
  else if tag = "TABLE" then ["tw-w-full", "tw-border-collapse", "tw-my-4"]
  else if tag = "TH" then
    ["tw-px-4", "tw-py-2", "tw-text-left", "tw-bg-gray-100", "tw-border",
     "tw-border-gray-200", "tw-font-semibold"]
  else if tag = "TD" then ["tw-px-4", "tw-py-2", "tw-border", "tw-border-gray-200"]
  else []

/-- The class-annotation pass on one block. -/
def classifyBlock : Block → Block
  | .el tag className text => .el tag (classListAdd className (classesFor tag)) text
  | .preCode c t => .preCode c t

/-- The class-annotation pass on the sectionized document (the wrapper
divs themselves are divs, so they receive "c9gi4" as well). -/
def classifyDoc (secs : List SectionDiv) : List SectionDiv :=
  secs.map (fun sec =>
    { className := classListAdd sec.className ["c9gi4"],
      children := sec.children.map classifyBlock })

/-- Serialize one block back to HTML text. -/
def renderBlock : Block → String
  | .el tag className text =>
    "<" ++ tag ++ " class=" ++ className ++ ">" ++ text ++ "</" ++ tag ++ ">"
  | .preCode codeClassName codeText =>
    "<PRE><CODE class=" ++ codeClassName ++ ">" ++ codeText ++ "</CODE></PRE>"

/-- Serialize a section wrapper. -/
def renderSection (sec : SectionDiv) : String :=
  "<DIV class=" ++ sec.className ++ ">" ++
    String.join (sec.children.map renderBlock) ++ "</DIV>"

/-- The `document.body.innerHTML` of the processed document. -/
def renderDoc (secs : List SectionDiv) : String :=
  String.join (secs.map renderSection)

/-- The `try` body of `processArticleContent`: markdown parsing (the
external `marked.parse`, the one fallible step of the model, passed as a
parameter), then mermaid extraction, then sectionizing, then class
annotation, then serialization. -/
def runPipeline (parse : String → Except String (List Block)) (body : String) :
    Except String String := do
  let doc ← parse body
  let doc2 := processMermaidDiagrams doc
  let secs := sectionizeDoc doc2
  let secs2 := classifyDoc secs
  pure (renderDoc secs2)

/-- The exported `processArticleContent`: run the pipeline on `entry.body || ""`; on
any error fall back to the untouched source text.  Total by
construction, so the error never escapes to the caller. -/
def processArticleContent (parse : String → Except String (List Block))
    (body? : Option String) : String :=
  match runPipeline parse (body?.getD "") with
  | .ok s => s
  | .error _ => body?.getD ""

/-- Counterexample to C9 as stated: a code block whose class LIST does
not contain the token "language-mermaid" (its sole class is
"language-mermaid-custom") is nevertheless replaced, because the code
tests `className.includes("language-mermaid")`, a substring check. -/
theorem mermaid_classlist_cex :
    ((classTokens "language-mermaid-custom").contains "language-mermaid" = false) ∧
    processMermaidDiagrams [Block.preCode "language-mermaid-custom" "graph TD"] =
      [Block.el "DIV" "mermaid" "graph TD"] := by
  constructor
  · decide
  · decide

/-- C9 (amended): a `<pre><code>` block whose class attribute contains
"language-mermaid" as a substring is replaced by a bare
`<div class="mermaid">` holding the code's exact original text content;
a code block whose class attribute does not contain that substring, and
every non-code block, is left unchanged; and the extraction runs before
the sectionizing and class-annotation passes of the pipeline. -/
theorem mermaid_extraction_spec (bs : List Block) (c t : String) :
    (jsIncludes c "language-mermaid" = true →
      processMermaidDiagrams (Block.preCode c t :: bs) =
        Block.el "DIV" "mermaid" t :: processMermaidDiagrams bs) ∧
    (jsIncludes c "language-mermaid" = false →
      processMermaidDiagrams (Block.preCode c t :: bs) =
        Block.preCode c t :: processMermaidDiagrams bs) ∧
    (∀ tag cls tx, processMermaidDiagrams (Block.el tag cls tx :: bs) =
        Block.el tag cls tx :: processMermaidDiagrams bs) ∧
    (∀ parse body, runPipeline parse body =
        Except.map
          (fun d => renderDoc (classifyDoc (sectionizeDoc (processMermaidDiagrams d))))
          (parse body)) := by
  refine ⟨?_, ?_, ?_, ?_⟩
  · intro h
    simp [processMermaidDiagrams, mermaidStep, h]
  · intro h
    simp [processMermaidDiagrams, mermaidStep, h]
  · intro tag cls tx
    simp [processMermaidDiagrams, mermaidStep]
  · intro parse body
    cases hp : parse body with
    | ok d => simp [runPipeline, hp, Except.map]
    | error e => simp [runPipeline, hp, Except.map]

/-- Witness for C9: the spec's two examples — a mermaid-tagged block is
lifted into a diagram container, a python-tagged block is untouched. -/
theorem mermaid_extraction_spec_witness :
    processMermaidDiagrams [Block.preCode "language-mermaid" "graph LR"] =
      [Block.el "DIV" "mermaid" "graph LR"] ∧
    processMermaidDiagrams [Block.preCode "language-python" "print(1)"] =
      [Block.preCode "language-python" "print(1)"] :=
  ⟨(mermaid_extraction_spec [] "language-mermaid" "graph LR").1 (by decide),
   (mermaid_extraction_spec [] "language-python" "print(1)").2.1 (by decide)⟩

/-- C10: whenever the pipeline fails on the (possibly missing) entry
body, `processArticleContent` returns exactly the untouched source text
`entry.body || ""`; being a total function it never propagates the
error. -/
theorem pipeline_error_fallback (parse : String → Except String (List Block))
    (body? : Option String) (e : String)
    (h : runPipeline parse (body?.getD "") = Except.error e) :
    processArticleContent parse body? = body?.getD "" := by
  rw [processArticleContent, h]

/-- Witness for C10: a parser that always throws makes the processor
echo the raw body. -/
theorem pipeline_error_fallback_witness :
    processArticleContent (fun _ => Except.error "boom") (some "raw body text") =
      "raw body text" :=
  pipeline_error_fallback (fun _ => Except.error "boom") (some "raw body text")
    "boom" rfl
